import Mathlib

/-!
Shallow embedding of the agent-orchestration core of the rsstvlm repository:

* `src/rsstvlm/services/graphrag/retrieve.py` — `CustomRetriever` (hybrid
  vector/graph fusion with AND/OR modes);
* `src/rsstvlm/agent/agentic_rag.py` — `AgenticRAG` (tool-call extraction from
  structured blocks or from `<tool_call>{...}</tool_call>` markers embedded in
  the reasoning text, argument decoding, and the `stream` orchestration loop);
* `src/rsstvlm/agent/workflow.py` — `AgentWorkflow` (the event-driven loop:
  `handle_llm_input` streaming step and `handle_tool_calls` dispatch step).

Python JSON values are modelled by `JValue`; the standard-library `json.loads`
is modelled as an oracle parameter (a function `String → Option JValue`, or
`String → Option (List (String × JValue))` where the decoded text is known to
be brace-delimited so a successful decode is an object).  Machine-level
exceptions are modelled with `Except String`.
-/

/-- A Python/JSON value as handled by the agent code.  Numbers are modelled as
integers (no claim touches numeric payloads).  Object fields keep insertion
order, as Python dicts do. -/
inductive JValue where
  | null : JValue
  | bool (b : Bool) : JValue
  | num (n : Int) : JValue
  | str (s : String) : JValue
  | arr (xs : List JValue) : JValue
  | obj (fields : List (String × JValue)) : JValue
deriving Repr

/-- Python truthiness (`if not x`) for the modelled values. -/
def jvTruthy : JValue → Bool
  | .null => false
  | .bool b => b
  | .num n => decide (n ≠ 0)
  | .str s => decide (s ≠ "")
  | .arr xs => !xs.isEmpty
  | .obj fs => !fs.isEmpty

/-- `dict.get(k)` on a Python dict modelled as an ordered association list
(keys are unique in a Python dict, so first-match lookup is faithful). -/
def jmLookup (fields : List (String × JValue)) (k : String) : Option JValue :=
  match fields with
  | [] => none
  | (k2, v) :: rest => if k2 = k then some v else jmLookup rest k

mutual

/-- `json.dumps` on the modelled values (separators and key order as the
default `json.dumps`; string escaping elided — no claim inspects the
serialized text beyond determinism). -/
def jdump : JValue → String
  | .null => "null"
  | .bool true => "true"
  | .bool false => "false"
  | .num n => toString n
  | .str s => "\"" ++ s ++ "\""
  | .arr xs => "[" ++ jdumpList xs ++ "]"
  | .obj fs => "\x7b" ++ jdumpFields fs ++ "\x7d"

def jdumpList : List JValue → String
  | [] => ""
  | [x] => jdump x
  | x :: y :: xs => jdump x ++ ", " ++ jdumpList (y :: xs)

def jdumpFields : List (String × JValue) → String
  | [] => ""
  | [(k, v)] => "\"" ++ k ++ "\": " ++ jdump v
  | (k, v) :: f :: fs => "\"" ++ k ++ "\": " ++ jdump v ++ ", " ++ jdumpFields (f :: fs)

end

/-! ## Hybrid retrieval fusion (`services/graphrag/retrieve.py`) -/

/-- `NodeWithScore`: retrieval node with its identifier (`n.node.node_id`) and
content payload. -/
structure NodeWithScore where
  node_id : String
  content : String
deriving Repr, DecidableEq

/-- Insertion-ordered deduplication: the iteration order of the Python set
comprehensions `{n.node.node_id for n in nodes}` is unspecified, but the
*membership* is the set of ids; we realise the id set as a first-occurrence
list so the result is executable.  Only membership and `Nodup` facts are
proved about it. -/
def insertionDedup : List String → List String
  | [] => []
  | x :: xs => if x ∈ insertionDedup xs then insertionDedup xs else x :: insertionDedup xs

/-- `combined_dict[rid]`: `combined_dict` maps each id to the node registered
last among `vector_nodes ++ kg_nodes` with that id (vector nodes are inserted
first, graph nodes `update` — overwrite — on id clash). -/
def combinedLookup (vectorNodes kgNodes : List NodeWithScore) (rid : String) :
    Option NodeWithScore :=
  ((vectorNodes ++ kgNodes).filter (fun n => n.node_id = rid)).getLast?

/-- State produced by a successful `CustomRetriever.__init__`: the validated
mode string (`self._mode`).  The vector/graph sub-retrievers are external
collaborators and appear as explicit arguments of `customRetrieve`. -/
structure RetrieverState where
  mode : String
deriving Repr, DecidableEq

/-- `CustomRetriever.__init__`: `mode: str | None = "OR"`; any value outside
the pair `("AND", "OR")` — including `None` — raises
`ValueError("Invalid mode.")`, so no retriever instance is produced. -/
def customRetrieverInit (mode : Option String) : Except String RetrieverState :=
  match mode with
  | some m => if m = "AND" ∨ m = "OR" then .ok ⟨m⟩ else .error "Invalid mode."
  | none => .error "Invalid mode."

/-- `CustomRetriever._retrieve`, with the two branch results
(`self._vector_retriever.retrieve(...)`, `self._kg_retriever.retrieve(...)`)
passed as inputs.  `retrieve_ids` is the AND/OR combination of the two id
sets; the output picks each id's node out of `combined_dict`. -/
def customRetrieve (st : RetrieverState) (vectorNodes kgNodes : List NodeWithScore) :
    List NodeWithScore :=
  let vectorIds := insertionDedup (vectorNodes.map (fun n => n.node_id))
  let kgIds := insertionDedup (kgNodes.map (fun n => n.node_id))
  let retrieveIds :=
    if st.mode = "AND" then vectorIds.filter (fun i => i ∈ kgIds)
    else insertionDedup (vectorIds ++ kgIds)
  retrieveIds.filterMap (combinedLookup vectorNodes kgNodes)

/-! Basic lemmas about the fusion step. -/

theorem mem_insertionDedup (x : String) : ∀ l : List String,
    x ∈ insertionDedup l ↔ x ∈ l := by
  intro l
  induction l with
  | nil => simp [insertionDedup]
  | cons a as ih =>
    by_cases h : a ∈ insertionDedup as
    · simp only [insertionDedup, if_pos h, List.mem_cons, ih]
      constructor
      · intro hx; exact Or.inr hx
      · rintro (rfl | hx)
        · exact ih.mp h
        · exact hx
    · simp [insertionDedup, if_neg h, ih]

theorem nodup_insertionDedup : ∀ l : List String, (insertionDedup l).Nodup := by
  intro l
  induction l with
  | nil => simp [insertionDedup]
  | cons a as ih =>
    by_cases h : a ∈ insertionDedup as
    · simpa [insertionDedup, if_pos h] using ih
    · simp only [insertionDedup, if_neg h]
      exact List.Nodup.cons h ih

theorem mem_of_getLast?_eq {α : Type _} {l : List α} {a : α}
    (h : l.getLast? = some a) : a ∈ l := by
  have hm : a ∈ l.getLast? := by rw [h]; rfl
  rcases List.mem_getLast?_eq_getLast hm with ⟨hne, rfl⟩
  exact List.getLast_mem hne

theorem combinedLookup_mem_of_mem (v k : List NodeWithScore) (rid : String)
    (h : rid ∈ (v ++ k).map (fun n => n.node_id)) :
    ∃ n, combinedLookup v k rid = some n ∧ n.node_id = rid ∧ n ∈ v ++ k := by
  rcases List.mem_map.mp h with ⟨n0, hn0, hid⟩
  have hf : n0 ∈ (v ++ k).filter (fun n => n.node_id = rid) :=
    List.mem_filter.mpr ⟨hn0, by simpa using hid⟩
  have hne : (v ++ k).filter (fun n => n.node_id = rid) ≠ [] :=
    fun hnil => by simp [hnil] at hf
  rcases List.getLast?_isSome.mpr hne |> Option.isSome_iff_exists.mp with ⟨n, hn⟩
  refine ⟨n, hn, ?_, ?_⟩
  · have hmem := mem_of_getLast?_eq hn
    have := List.mem_filter.mp hmem
    simpa using this.2
  · exact (List.mem_filter.mp (mem_of_getLast?_eq hn)).1

theorem combinedLookup_none_of_not_mem (v k : List NodeWithScore) (rid : String)
    (h : rid ∉ (v ++ k).map (fun n => n.node_id)) :
    combinedLookup v k rid = none := by
  have : (v ++ k).filter (fun n => n.node_id = rid) = [] := by
    apply List.filter_eq_nil_iff.mpr
    intro n hn hdec
    exact h (List.mem_map.mpr ⟨n, hn, by simpa using hdec⟩)
  simp [combinedLookup, this]

/-- The ids of the fused result are exactly `retrieve_ids` whenever every
retrieve id names some node (which is always the case for ids drawn from the
two branches). -/
theorem map_id_filterMap_combinedLookup (v k : List NodeWithScore) :
    ∀ ids : List String, (∀ i ∈ ids, i ∈ (v ++ k).map (fun n => n.node_id)) →
    (ids.filterMap (combinedLookup v k)).map (fun n => n.node_id) = ids := by
  intro ids
  induction ids with
  | nil => intro _; simp
  | cons a as ih =>
    intro hall
    rcases combinedLookup_mem_of_mem v k a (hall a (by simp)) with ⟨n, hn, hid, _⟩
    simp only [List.filterMap_cons, hn, List.map_cons, hid]
    rw [ih (fun i hi => hall i (List.mem_cons_of_mem a hi))]

/-- Every node returned by the fusion step comes from one of the two branches. -/
theorem filterMap_combinedLookup_sub (v k : List NodeWithScore) (ids : List String) :
    ∀ n ∈ ids.filterMap (combinedLookup v k), n ∈ v ++ k := by
  intro n hn
  rcases List.mem_filterMap.mp hn with ⟨i, _, hi⟩
  exact (List.mem_filter.mp (mem_of_getLast?_eq hi)).1

theorem customRetrieve_AND_map_id (v k : List NodeWithScore) :
    (customRetrieve ⟨"AND"⟩ v k).map (fun n => n.node_id)
      = (insertionDedup (v.map (fun n => n.node_id))).filter
          (fun i => i ∈ insertionDedup (k.map (fun n => n.node_id))) := by
  show ((if ("AND" : String) = "AND" then _ else _ : List String).filterMap _).map _ = _
  rw [if_pos rfl]
  apply map_id_filterMap_combinedLookup
  intro i hi
  have : i ∈ insertionDedup (v.map (fun n => n.node_id)) := (List.mem_filter.mp hi).1
  have := (mem_insertionDedup i _).mp this
  simpa using Or.inl this

theorem customRetrieve_OR_map_id (v k : List NodeWithScore) :
    (customRetrieve ⟨"OR"⟩ v k).map (fun n => n.node_id)
      = insertionDedup (insertionDedup (v.map (fun n => n.node_id))
          ++ insertionDedup (k.map (fun n => n.node_id))) := by
  show ((if ("OR" : String) = "AND" then _ else _ : List String).filterMap _).map _ = _
  rw [if_neg (by decide)]
  apply map_id_filterMap_combinedLookup
  intro i hi
  have := (mem_insertionDedup i _).mp hi
  rcases List.mem_append.mp this with h | h
  · simpa using Or.inl ((mem_insertionDedup i _).mp h)
  · simpa using Or.inr ((mem_insertionDedup i _).mp h)

/-- C3.  For every pair of branch result lists, hybrid fusion in `AND` mode
returns exactly the nodes whose identifiers lie in the intersection of the two
branches' identifier sets, and in `OR` mode in their union; no identifier
appears twice in the output; on the concrete branches with vector ids
`{a, b}` and graph ids `{b, c}`, `OR` yields ids `{a, b, c}` and `AND` yields
`{b}`; with both branches empty the result is the empty list (no error). -/
theorem hybrid_fusion_set_semantics :
    (∀ v k : List NodeWithScore, ∀ x : String,
        (x ∈ (customRetrieve ⟨"AND"⟩ v k).map (fun n => n.node_id) ↔
          x ∈ v.map (fun n => n.node_id) ∧ x ∈ k.map (fun n => n.node_id))
      ∧ (x ∈ (customRetrieve ⟨"OR"⟩ v k).map (fun n => n.node_id) ↔
          x ∈ v.map (fun n => n.node_id) ∨ x ∈ k.map (fun n => n.node_id)))
    ∧ (∀ v k : List NodeWithScore,
        ((customRetrieve ⟨"AND"⟩ v k).map (fun n => n.node_id)).Nodup
      ∧ ((customRetrieve ⟨"OR"⟩ v k).map (fun n => n.node_id)).Nodup
      ∧ (∀ n ∈ customRetrieve ⟨"AND"⟩ v k, n ∈ v ++ k)
      ∧ (∀ n ∈ customRetrieve ⟨"OR"⟩ v k, n ∈ v ++ k))
    ∧ ((customRetrieve ⟨"OR"⟩ [⟨"a", "va"⟩, ⟨"b", "vb"⟩] [⟨"b", "gb"⟩, ⟨"c", "gc"⟩]).map
          (fun n => n.node_id) = ["a", "b", "c"]
      ∧ (customRetrieve ⟨"AND"⟩ [⟨"a", "va"⟩, ⟨"b", "vb"⟩] [⟨"b", "gb"⟩, ⟨"c", "gc"⟩]).map
          (fun n => n.node_id) = ["b"])
    ∧ (customRetrieve ⟨"AND"⟩ [] [] = [] ∧ customRetrieve ⟨"OR"⟩ [] [] = []) := by
  refine ⟨?_, ?_, ⟨by decide, by decide⟩, ⟨by decide, by decide⟩⟩
  · intro v k x
    constructor
    · rw [customRetrieve_AND_map_id]
      constructor
      · intro hx
        have h1 := (List.mem_filter.mp hx).1
        have h2 := (List.mem_filter.mp hx).2
        exact ⟨(mem_insertionDedup x _).mp h1,
          (mem_insertionDedup x _).mp (by simpa using h2)⟩
      · rintro ⟨h1, h2⟩
        exact List.mem_filter.mpr ⟨(mem_insertionDedup x _).mpr h1,
          by simpa using (mem_insertionDedup x _).mpr h2⟩
    · rw [customRetrieve_OR_map_id]
      rw [mem_insertionDedup, List.mem_append, mem_insertionDedup, mem_insertionDedup]
  · intro v k
    refine ⟨?_, ?_, filterMap_combinedLookup_sub v k _, filterMap_combinedLookup_sub v k _⟩
    · rw [customRetrieve_AND_map_id]
      exact List.Nodup.filter _ (nodup_insertionDedup _)
    · rw [customRetrieve_OR_map_id]
      exact nodup_insertionDedup _

/-- C10.  `CustomRetriever.__init__` accepts exactly the mode strings `"AND"`
and `"OR"` (storing the given mode), and any other mode — `None` and lowercase
variants included — raises `ValueError("Invalid mode.")`, so no retriever
state is produced; a retriever constructed with `"AND"` fuses by identifier
intersection on every retrieve call, and one constructed with `"OR"` by
identifier union. -/
theorem customRetriever_mode_validation :
    (∀ m : Option String,
        customRetrieverInit m = .error "Invalid mode." ↔
          (m ≠ some "AND" ∧ m ≠ some "OR"))
    ∧ customRetrieverInit (some "AND") = .ok ⟨"AND"⟩
    ∧ customRetrieverInit (some "OR") = .ok ⟨"OR"⟩
    ∧ customRetrieverInit none = .error "Invalid mode."
    ∧ customRetrieverInit (some "and") = .error "Invalid mode."
    ∧ customRetrieverInit (some "or") = .error "Invalid mode."
    ∧ (∀ v k : List NodeWithScore, ∀ x : String,
        (x ∈ (customRetrieve ⟨"AND"⟩ v k).map (fun n => n.node_id) ↔
          x ∈ v.map (fun n => n.node_id) ∧ x ∈ k.map (fun n => n.node_id))
      ∧ (x ∈ (customRetrieve ⟨"OR"⟩ v k).map (fun n => n.node_id) ↔
          x ∈ v.map (fun n => n.node_id) ∨ x ∈ k.map (fun n => n.node_id))) := by
  refine ⟨?_, by simp [customRetrieverInit], by simp [customRetrieverInit],
    by simp [customRetrieverInit], by simp [customRetrieverInit],
    by simp [customRetrieverInit], ?_⟩
  · intro m
    match m with
    | none => simp [customRetrieverInit]
    | some m =>
      simp only [customRetrieverInit]
      by_cases h : m = "AND" ∨ m = "OR"
      · rw [if_pos h]
        constructor
        · intro hc; cases hc
        · rintro ⟨h1, h2⟩
          rcases h with rfl | rfl
          · exact absurd rfl h1
          · exact absurd rfl h2
      · rw [if_neg h]
        push_neg at h
        constructor
        · intro _; exact ⟨by simpa using h.1, by simpa using h.2⟩
        · intro _; rfl
  · intro v k x
    constructor
    · rw [customRetrieve_AND_map_id]
      constructor
      · intro hx
        exact ⟨(mem_insertionDedup x _).mp (List.mem_filter.mp hx).1,
          (mem_insertionDedup x _).mp (by simpa using (List.mem_filter.mp hx).2)⟩
      · rintro ⟨h1, h2⟩
        exact List.mem_filter.mpr ⟨(mem_insertionDedup x _).mpr h1,
          by simpa using (mem_insertionDedup x _).mpr h2⟩
    · rw [customRetrieve_OR_map_id]
      rw [mem_insertionDedup, List.mem_append, mem_insertionDedup, mem_insertionDedup]

/-! ## Tool-call extraction (`agent/agentic_rag.py`) -/

/-- The payload under a structured call's `function.get("arguments")`:
a dict, a string, or anything else (including an absent key, i.e. `None`). -/
inductive ArgPayload where
  | dict (d : List (String × JValue))
  | str (s : String)
  | other
deriving Repr

/-- The `function` field of a tool call: `name` is whatever JSON value sits
under the `"name"` key (`None` when absent), `arguments` as above. -/
structure ToolCallFunction where
  name : Option JValue
  arguments : ArgPayload
deriving Repr

/-- A tool-call block, dict- or object-shaped; `function = none` models an
absent or falsy `function` entry (for which `_parse_tool_call` sees `{}`). -/
structure ToolCall where
  id : Option String
  type : Option String
  function : Option ToolCallFunction
deriving Repr

/-- `AgenticRAG._format_args`: `json.dumps(args, ensure_ascii=True)`.  The
`TypeError/ValueError` fallback `str(args)` is unreachable for the modelled
JSON values, which are all serializable. -/
def formatArgs (args : JValue) : String := jdump args

/-- `AgenticRAG._parse_tool_call`, with `json.loads` as the oracle `jd`.
`function = none` gives `({}, …)` behaviour: `name = None`, `args = {}`.
A string payload is decoded; a decoded dict is used as-is, any other decoded
value `v` becomes `{"input": v}`, and a `JSONDecodeError` yields the raw-string
fallback `{"input": raw}`.  Total: no parse failure raises. -/
def parseToolCall (jd : String → Option JValue) (tc : ToolCall) :
    Option JValue × List (String × JValue) :=
  match tc.function with
  | none => (none, [])
  | some f =>
    let args :=
      match f.arguments with
      | .dict d => d
      | .str s =>
        match jd s with
        | some (.obj d) => d
        | some v => [("input", v)]
        | none => [("input", .str s)]
      | .other => []
    (f.name, args)

/-! ### The embedded-marker scanner

`_parse_reasoning_tool_calls` runs
`re.finditer(r"<tool_call>\s*(\{.*?\})\s*</tool_call>", text, flags=re.S)`.
The scanner below implements exactly that pattern's matching on `List Char`:
leftmost scanning position by position; after the literal `<tool_call>` the
greedy `\s*` must end at a `{` (the following token is a fixed character, so
backtracking leaves no other choice); the non-greedy `(\{.*?\})` closes at the
earliest `}` that is followed by `\s*</tool_call>` (again `\s*` is forced to
the whole whitespace run since `<` is not whitespace); matches do not
overlap — scanning resumes after a match's end. -/

/-- The literal `<tool_call>` (see `tokens_match_source`). -/
def openTokChars : List Char := ['<', 't', 'o', 'o', 'l', '_', 'c', 'a', 'l', 'l', '>']

/-- The literal `</tool_call>` (see `tokens_match_source`). -/
def closeTokChars : List Char := ['<', '/', 't', 'o', 'o', 'l', '_', 'c', 'a', 'l', 'l', '>']

theorem tokens_match_source :
    openTokChars = "<tool_call>".data ∧ closeTokChars = "</tool_call>".data := by
  constructor <;> rfl

/-- ASCII whitespace as matched by `\s`. -/
def isPyWs (c : Char) : Bool :=
  c = ' ' || c = '\t' || c = '\n' || c = '\r' || c = '\x0b' || c = '\x0c'

def dropWsChars : List Char → List Char
  | [] => []
  | c :: cs => if isPyWs c then dropWsChars cs else c :: cs

/-- `chopLit pat s = some r` iff `s = pat ++ r` (strip a literal). -/
def chopLit : List Char → List Char → Option (List Char)
  | [], s => some s
  | _ :: _, [] => none
  | p :: ps, c :: cs => if p = c then chopLit ps cs else none

/-- Does `pat` occur as a contiguous substring? -/
def occursIn (pat : List Char) : List Char → Bool
  | [] => (chopLit pat []).isSome
  | c :: cs => (chopLit pat (c :: cs)).isSome || occursIn pat cs

/-- The lazy tail `.*?\}\s*</tool_call>`: find the shortest content whose next
character is `}` followed by optional whitespace and the closing literal;
returns the content (without braces) and the rest after the closing literal. -/
def lazyScan : List Char → Option (List Char × List Char)
  | [] => none
  | c :: rest =>
    match (if c = '}' then chopLit closeTokChars (dropWsChars rest) else none) with
    | some rest2 => some ([], rest2)
    | none =>
      match lazyScan rest with
      | some (content, rest2) => some (c :: content, rest2)
      | none => none

/-- After the `<tool_call>` literal: `\s*(\{.*?\})\s*</tool_call>`.  Returns
the captured group (braces included) and the rest of the input. -/
def matchAfterOpen (s : List Char) : Option (List Char × List Char) :=
  match dropWsChars s with
  | '{' :: rest =>
    match lazyScan rest with
    | some (content, rest2) => some ('{' :: (content ++ ['}']), rest2)
    | none => none
  | _ => none

theorem chopLit_eq_some_iff : ∀ (p s r : List Char), chopLit p s = some r ↔ s = p ++ r := by
  intro p
  induction p with
  | nil =>
    intro s r
    simp only [chopLit, List.nil_append, Option.some.injEq]
  | cons a ps ih =>
    intro s r
    match s with
    | [] => simp [chopLit]
    | c :: cs =>
      simp only [chopLit, List.cons_append]
      by_cases h : a = c
      · subst h
        rw [if_pos rfl, ih]
        constructor
        · intro h2; rw [h2]
        · intro h2; exact (List.cons.injEq _ _ _ _).mp h2 |>.2
      · rw [if_neg h]
        constructor
        · intro h2; cases h2
        · intro h2
          exact absurd ((List.cons.injEq _ _ _ _).mp h2).1.symm h

theorem chopLit_append (p r : List Char) : chopLit p (p ++ r) = some r :=
  (chopLit_eq_some_iff p (p ++ r) r).mpr rfl

theorem chopLit_length {p s r : List Char} (h : chopLit p s = some r) :
    r.length + p.length = s.length := by
  have := (chopLit_eq_some_iff p s r).mp h
  subst this
  simp [Nat.add_comm]

theorem dropWsChars_length : ∀ s : List Char, (dropWsChars s).length ≤ s.length := by
  intro s
  induction s with
  | nil => simp [dropWsChars]
  | cons c cs ih =>
    simp only [dropWsChars]
    by_cases h : isPyWs c
    · rw [if_pos h]; exact Nat.le_succ_of_le ih
    · rw [if_neg h]

theorem lazyScan_length : ∀ {s cont r : List Char}, lazyScan s = some (cont, r) →
    r.length ≤ s.length := by
  intro s
  induction s with
  | nil => intro cont r h; simp [lazyScan] at h
  | cons c cs ih =>
    intro cont r h
    simp only [lazyScan] at h
    rcases h2 : (if c = '}' then chopLit closeTokChars (dropWsChars cs) else none) with _ | rest2
    · rw [h2] at h
      rcases h3 : lazyScan cs with _ | ⟨cont2, r2⟩
      · rw [h3] at h; cases h
      · rw [h3] at h
        have := ih h3
        cases h
        exact Nat.le_succ_of_le this
    · rw [h2] at h
      cases h
      by_cases hc : c = '}'
      · rw [if_pos hc] at h2
        have := chopLit_length h2
        have hd := dropWsChars_length cs
        simp only [List.length_cons]
        omega
      · rw [if_neg hc] at h2; cases h2

theorem matchAfterOpen_length {s p r : List Char} (h : matchAfterOpen s = some (p, r)) :
    r.length < s.length := by
  unfold matchAfterOpen at h
  split at h
  · rename_i ds heq
    split at h
    · rename_i cont rest2 heq2
      cases h
      have h4 := lazyScan_length heq2
      have h5 := dropWsChars_length s
      rw [heq] at h5
      cases s with
      | nil => simp [dropWsChars] at heq
      | cons c cs =>
        simp only [List.length_cons] at h5 ⊢
        omega
    · cases h
  · cases h

/-- `re.finditer` over the whole pattern: try each position left to right; a
successful match yields its captured payload and scanning resumes after the
match, a failed attempt advances one position. -/
def findToolCallPayloads : List Char → List (List Char)
  | [] => []
  | c :: rest =>
    match h1 : chopLit openTokChars (c :: rest) with
    | some after =>
      match h2 : matchAfterOpen after with
      | some (payload, rest2) => payload :: findToolCallPayloads rest2
      | none => findToolCallPayloads rest
    | none => findToolCallPayloads rest
termination_by s => s.length
decreasing_by
  · have ha := chopLit_length h1
    have hb := matchAfterOpen_length h2
    have hl : openTokChars.length = 11 := rfl
    rw [hl] at ha
    simp only [List.length_cons] at ha ⊢
    omega
  · simp only [List.length_cons]; omega
  · simp only [List.length_cons]; omega

/-- The tool-call dict built by `_parse_reasoning_tool_calls` for the
`call_index`-th successfully decoded payload `parsed`:
`{"id": f"call_{i}", "type": "function",
  "function": {"name": parsed.get("name"),
               "arguments": _format_args(parsed.get("arguments", {}))}}`. -/
def mkReasoningCall (idx : Nat) (fields : List (String × JValue)) : ToolCall :=
  { id := some ("call_" ++ toString idx)
    type := some "function"
    function := some
      { name := jmLookup fields "name"
        arguments := .str (formatArgs ((jmLookup fields "arguments").getD (.obj []))) } }

/-- The `for match in re.finditer(...)` loop body of
`_parse_reasoning_tool_calls`: `json.loads` each payload (the oracle `jd`
returns the decoded object's fields, or `none` for a `JSONDecodeError`, which
is skipped — `call_index` advances only on success). -/
def reasoningCallsAux (jd : String → Option (List (String × JValue))) :
    List (List Char) → Nat → List ToolCall
  | [], _ => []
  | p :: rest, idx =>
    match jd (String.mk p) with
    | none => reasoningCallsAux jd rest idx
    | some fields => mkReasoningCall idx fields :: reasoningCallsAux jd rest (idx + 1)

/-- `AgenticRAG._parse_reasoning_tool_calls`. -/
def parseReasoningToolCalls (jd : String → Option (List (String × JValue)))
    (reasoning_content : String) : List ToolCall :=
  reasoningCallsAux jd (findToolCallPayloads reasoning_content.data) 0

/-- One entry of `raw_response.choices`: only `message.reasoning_content` is
consulted (`none` models an absent attribute). -/
structure RawChoice where
  reasoning_content : Option String
deriving Repr

/-- `response.raw` with its `choices` (an absent/falsy `choices` attribute is
the empty list, per `getattr(raw_response, "choices", []) or []`). -/
structure RawResponse where
  choices : List RawChoice
deriving Repr

/-- The assistant `ChatMessage`: content blocks `(block_type, text)`, the
plain `content` field, and `additional_kwargs.get("tool_calls")` when that
entry is a list (`none` models an absent entry, a falsy `additional_kwargs`,
or a non-list entry, all of which contribute nothing). -/
structure AssistantMessage where
  blocks : List (String × String)
  content : Option String
  tool_calls : Option (List ToolCall)
deriving Repr

/-- A chat response: `response.additional_kwargs`, `response.message`, and
`response.raw` (`none` models a falsy raw response). -/
structure ChatResponse where
  tool_calls : Option (List ToolCall)
  message : AssistantMessage
  raw : Option RawResponse
deriving Repr

/-- The structured tool calls gathered by the first loop of
`_extract_tool_calls`: `response.additional_kwargs["tool_calls"]` then
`response.message.additional_kwargs["tool_calls"]`, in that order. -/
def structuredCalls (r : ChatResponse) : List ToolCall :=
  r.tool_calls.getD [] ++ r.message.tool_calls.getD []

/-- `AgenticRAG._extract_tool_calls`: structured calls win when any exist;
only otherwise is each raw choice's truthy `reasoning_content` parsed for
embedded `<tool_call>` markers. -/
def extractToolCalls (jd : String → Option (List (String × JValue)))
    (r : ChatResponse) : List ToolCall :=
  let tool_calls := structuredCalls r
  if !tool_calls.isEmpty then tool_calls
  else
    match r.raw with
    | none => tool_calls
    | some raw =>
      (raw.choices.map (fun ch =>
        match ch.reasoning_content with
        | some rc => if rc = "" then [] else parseReasoningToolCalls jd rc
        | none => [])).join

/-- `AgenticRAG._message_text`: join the texts of the `"text"` blocks when any
block exists, else fall back to `message.content or ""`. -/
def messageText (m : AssistantMessage) : String :=
  let parts := (m.blocks.filter (fun b => b.1 = "text")).map (fun b => b.2)
  if !parts.isEmpty then String.intercalate "\n" (parts.filter (fun p => p ≠ ""))
  else m.content.getD ""

/-- C8.  For every structured tool call whose `arguments` payload is a string
that fails to decode as JSON, `_parse_tool_call` replaces the arguments with
the fallback mapping `{"input": <raw text>}` rather than discarding the call
(the call's `name` is still returned); a string that decodes to a JSON dict is
used as-is.  `parseToolCall` is a total function: no parse failure raises. -/
theorem parse_tool_call_string_args (jd : String → Option JValue)
    (f : ToolCallFunction) (s : String) :
    (jd s = none →
      parseToolCall jd ⟨none, none, some ⟨f.name, .str s⟩⟩
        = (f.name, [("input", JValue.str s)]))
    ∧ (∀ d : List (String × JValue), jd s = some (.obj d) →
      parseToolCall jd ⟨none, none, some ⟨f.name, .str s⟩⟩ = (f.name, d)) := by
  constructor
  · intro h
    simp [parseToolCall, h]
  · intro d h
    simp [parseToolCall, h]

theorem parse_tool_call_string_args_witness :
    parseToolCall (fun _ => none) ⟨none, none, some ⟨some (.str "plot"), .str "not json"⟩⟩
      = (some (.str "plot"), [("input", JValue.str "not json")]) :=
  (parse_tool_call_string_args (fun _ => none) ⟨some (.str "plot"), .str "not json"⟩
    "not json").1 rfl

/-- C6.  Whenever the response carries at least one structured tool-call block
(in `response.additional_kwargs` or `response.message.additional_kwargs`), the
extractor returns exactly those structured calls, and the result does not
depend on the JSON decoder — the embedded free-text path is never consulted;
the embedded parse of the raw choices' reasoning contents runs only when the
structured encoding yields zero calls. -/
theorem extract_prefers_structured (jd jd2 : String → Option (List (String × JValue)))
    (r : ChatResponse) :
    (structuredCalls r ≠ [] →
      extractToolCalls jd r = structuredCalls r
        ∧ extractToolCalls jd r = extractToolCalls jd2 r)
    ∧ (structuredCalls r = [] → ∀ raw, r.raw = some raw →
      extractToolCalls jd r
        = (raw.choices.map (fun ch =>
            match ch.reasoning_content with
            | some rc => if rc = "" then [] else parseReasoningToolCalls jd rc
            | none => [])).join) := by
  constructor
  · intro h
    have hne : (structuredCalls r).isEmpty = false := by
      cases he : structuredCalls r with
      | nil => exact absurd he h
      | cons a l => rfl
    constructor
    · simp [extractToolCalls, hne]
    · simp [extractToolCalls, hne]
  · intro h raw hraw
    have hemp : (structuredCalls r).isEmpty = true := by rw [h]; rfl
    simp [extractToolCalls, hemp, hraw]

/-- A response carrying both encodings: one structured call and a decodable
embedded marker; only the structured call is returned, and the decoder is
irrelevant. -/
theorem extract_prefers_structured_witness :
    extractToolCalls (fun _ => some [("name", .str "embedded")])
      { tool_calls := some [⟨some "id1", some "function", some ⟨some (.str "structured"), .other⟩⟩]
        message := { blocks := [], content := some "", tool_calls := none }
        raw := some { choices :=
          [{ reasoning_content :=
              some "<tool_call>\x7b\"name\": \"embedded\"\x7d</tool_call>" }] } }
      = [⟨some "id1", some "function", some ⟨some (.str "structured"), .other⟩⟩] :=
  ((extract_prefers_structured (fun _ => some [("name", .str "embedded")])
    (fun _ => none)
    { tool_calls := some [⟨some "id1", some "function", some ⟨some (.str "structured"), .other⟩⟩]
      message := { blocks := [], content := some "", tool_calls := none }
      raw := some { choices :=
        [{ reasoning_content :=
            some "<tool_call>\x7b\"name\": \"embedded\"\x7d</tool_call>" }] } }).1
    (by simp [structuredCalls])).1

/-! ### Scanner correctness on well-formed marker texts -/


/-- `<tool_call>` has no nontrivial border: no proper suffix of it is a prefix
of it, so an occurrence cannot straddle filler text and a following marker. -/
theorem openTok_no_border :
    ∀ j, j < 11 → 0 < j → openTokChars.drop j ≠ openTokChars.take (11 - j) := by
  decide

theorem findPayloads_cons_none {c : Char} {rest : List Char}
    (h : chopLit openTokChars (c :: rest) = none) :
    findToolCallPayloads (c :: rest) = findToolCallPayloads rest := by
  rw [findToolCallPayloads.eq_def]
  split
  · rename_i hnil
    cases hnil
  · rename_i c2 cs2 heq
    obtain ⟨rfl, rfl⟩ : c2 = c ∧ cs2 = rest := by
      injection heq with a b; exact ⟨a.symm, b.symm⟩
    split
    · rename_i after h3
      rw [h] at h3; cases h3
    · rfl

theorem findPayloads_eq_match {s after payload rest2 : List Char}
    (h1 : chopLit openTokChars s = some after)
    (h2 : matchAfterOpen after = some (payload, rest2)) :
    findToolCallPayloads s = payload :: findToolCallPayloads rest2 := by
  cases s with
  | nil => cases h1
  | cons c rest =>
    rw [findToolCallPayloads.eq_def]
    split
    · rename_i hnil
      cases hnil
    · rename_i c2 cs2 heq
      obtain ⟨rfl, rfl⟩ : c2 = c ∧ cs2 = rest := by
        injection heq with a b; exact ⟨a.symm, b.symm⟩
      split
      · rename_i after2 h3
        rw [h1] at h3
        injection h3 with h3
        subst h3
        split
        · rename_i payload2 rest3 h4
          rw [h2] at h4
          injection h4 with h4
          obtain ⟨rfl, rfl⟩ : payload2 = payload ∧ rest3 = rest2 := by
            injection h4 with a b; exact ⟨a.symm, b.symm⟩
          rfl
        · rename_i h4
          rw [h2] at h4; cases h4
      · rename_i h3
        rw [h1] at h3; cases h3

/-- Scanning a filler with no `<tool_call>` occurrence, followed by either the
empty string or text that begins with `<tool_call>`, finds nothing in the
filler: the token cannot straddle the boundary because it has no border. -/
theorem findPayloads_skip : ∀ (f s : List Char),
    occursIn openTokChars f = false →
    ((∃ r, s = openTokChars ++ r) ∨ s = []) →
    findToolCallPayloads (f ++ s) = findToolCallPayloads s := by
  intro f
  induction f with
  | nil => intro s _ _; rfl
  | cons c f2 ih =>
    intro s hocc hs
    have hol : openTokChars.length = 11 := rfl
    have hb : ((chopLit openTokChars (c :: f2)).isSome || occursIn openTokChars f2)
        = false := hocc
    have hd1 : chopLit openTokChars (c :: f2) = none := by
      rcases hh : chopLit openTokChars (c :: f2) with _ | a
      · rfl
      · rw [hh] at hb; cases hb
    have hd2 : occursIn openTokChars f2 = false := (Bool.or_eq_false_iff.mp hb).2
    have hnone : chopLit openTokChars (c :: (f2 ++ s)) = none := by
      rcases h : chopLit openTokChars (c :: (f2 ++ s)) with _ | after
      · rfl
      · exfalso
        have heq : (c :: f2) ++ s = openTokChars ++ after :=
          (chopLit_eq_some_iff _ _ _).mp h
        by_cases hk : 11 ≤ (c :: f2).length
        · -- the occurrence would fit inside the filler
          have htake : (c :: f2).take 11 = openTokChars := by
            have t1 : ((c :: f2) ++ s).take 11 = (openTokChars ++ after).take 11 := by
              rw [heq]
            rw [List.take_append_of_le_length hk] at t1
            rw [List.take_append_of_le_length (le_of_eq hol.symm)] at t1
            rw [List.take_of_length_le (le_of_eq hol)] at t1
            exact t1
          have : chopLit openTokChars (c :: f2) = some ((c :: f2).drop 11) := by
            apply (chopLit_eq_some_iff _ _ _).mpr
            conv_lhs => rw [← List.take_append_drop 11 (c :: f2), htake]
          rw [this] at hd1
          cases hd1
        · push_neg at hk
          rcases hs with ⟨r, rfl⟩ | rfl
          · -- straddling occurrence: forces a border of the token
            have hkle : (c :: f2).length ≤ openTokChars.length := by omega
            have t1 : openTokChars ++ r
                = openTokChars.drop (c :: f2).length ++ after := by
              have e1 : ((c :: f2) ++ (openTokChars ++ r)).drop (c :: f2).length
                  = openTokChars ++ r := by
                rw [List.drop_append_of_le_length (le_refl _),
                  List.drop_eq_nil_of_le (le_refl _), List.nil_append]
              have e2 : ((openTokChars ++ after)).drop (c :: f2).length
                  = openTokChars.drop (c :: f2).length ++ after :=
                List.drop_append_of_le_length hkle
              rw [← e1, heq, e2]
            have hlendrop : (openTokChars.drop (c :: f2).length).length
                = 11 - (c :: f2).length := by
              rw [List.length_drop, hol]
            have t2 : openTokChars.take (11 - (c :: f2).length)
                = openTokChars.drop (c :: f2).length := by
              have e1 : (openTokChars ++ r).take (11 - (c :: f2).length)
                  = openTokChars.take (11 - (c :: f2).length) :=
                List.take_append_of_le_length (by omega)
              have e2 : (openTokChars.drop (c :: f2).length ++ after).take
                    (11 - (c :: f2).length)
                  = openTokChars.drop (c :: f2).length := by
                rw [List.take_append_of_le_length (le_of_eq hlendrop.symm),
                  List.take_of_length_le (le_of_eq hlendrop)]
              rw [← e1, t1, e2]
            exact openTok_no_border (c :: f2).length
              (by simpa using hk) (by simp) t2.symm
          · -- `s = []`: too short for the literal
            have hlen : ((c :: f2) ++ ([] : List Char)).length
                = (openTokChars ++ after).length := by rw [heq]
            simp only [List.length_append, List.length_nil, hol] at hlen
            omega
    rw [show (c :: f2) ++ s = c :: (f2 ++ s) from rfl]
    rw [findPayloads_cons_none hnone]
    exact ih s hd2 hs

theorem dropWs_head_of_no_lt (a b : List Char) (ha : '<' ∉ a) :
    ∃ d t, dropWsChars (a ++ '}' :: b) = d :: t ∧ d ≠ '<' := by
  induction a with
  | nil =>
    refine ⟨'}', b, ?_, by decide⟩
    simp [dropWsChars, isPyWs]
  | cons c a2 ih =>
    by_cases hws : isPyWs c
    · rcases ih (fun hm => ha (List.mem_cons_of_mem c hm)) with ⟨d, t, hdt, hd⟩
      exact ⟨d, t, by simpa [dropWsChars, hws] using hdt, hd⟩
    · exact ⟨c, a2 ++ '}' :: b, by simp [dropWsChars, hws],
        fun hc => ha (hc ▸ List.mem_cons_self c a2)⟩

/-- Inside the non-greedy group, a `}` that is not the payload's closing brace
can never be followed by (whitespace and) `</tool_call>` when the payload
contains no `<` — so the scan cannot close early. -/
theorem close_fail (a b : List Char) (ha : '<' ∉ a) :
    chopLit closeTokChars (dropWsChars (a ++ '}' :: b)) = none := by
  rcases dropWs_head_of_no_lt a b ha with ⟨d, t, hdt, hd⟩
  rw [hdt]
  show chopLit ('<' :: ['/', 't', 'o', 'o', 'l', '_', 'c', 'a', 'l', 'l', '>']) (d :: t) = none
  simp only [chopLit]
  rw [if_neg (fun hc => hd hc.symm)]

/-- The lazy group scan captures exactly the payload's interior when the
interior contains no `<`. -/
theorem lazyScan_marker : ∀ (inner s : List Char), '<' ∉ inner →
    lazyScan (inner ++ '}' :: (closeTokChars ++ s)) = some (inner, s) := by
  intro inner
  induction inner with
  | nil =>
    intro s _
    show lazyScan ('}' :: (closeTokChars ++ s)) = some ([], s)
    rfl
  | cons c inner2 ih =>
    intro s h
    have h2 : '<' ∉ inner2 := fun hm => h (List.mem_cons_of_mem c hm)
    have hfail : (if c = '}'
        then chopLit closeTokChars (dropWsChars (inner2 ++ '}' :: (closeTokChars ++ s)))
        else none) = none := by
      by_cases hcc : c = '}'
      · rw [if_pos hcc]
        exact close_fail inner2 _ h2
      · rw [if_neg hcc]
    show lazyScan (c :: (inner2 ++ '}' :: (closeTokChars ++ s))) = _
    rw [show lazyScan (c :: (inner2 ++ '}' :: (closeTokChars ++ s)))
        = (match (if c = '}'
            then chopLit closeTokChars (dropWsChars (inner2 ++ '}' :: (closeTokChars ++ s)))
            else none) with
          | some rest2 => some ([], rest2)
          | none =>
            match lazyScan (inner2 ++ '}' :: (closeTokChars ++ s)) with
            | some (content, rest2) => some (c :: content, rest2)
            | none => none)
      from rfl]
    rw [hfail, ih s h2]

/-- At a marker, the scanner captures the whole brace-delimited payload and
resumes after `</tool_call>`. -/
theorem findPayloads_marker (inner rest : List Char) (h : '<' ∉ inner) :
    findToolCallPayloads
        (openTokChars ++ ('{' :: (inner ++ '}' :: (closeTokChars ++ rest))))
      = ('{' :: (inner ++ ['}'])) :: findToolCallPayloads rest := by
  have h1 : chopLit openTokChars
      (openTokChars ++ ('{' :: (inner ++ '}' :: (closeTokChars ++ rest))))
      = some ('{' :: (inner ++ '}' :: (closeTokChars ++ rest))) :=
    chopLit_append _ _
  have h2 : matchAfterOpen ('{' :: (inner ++ '}' :: (closeTokChars ++ rest)))
      = some ('{' :: (inner ++ ['}']), rest) := by
    show (match dropWsChars ('{' :: (inner ++ '}' :: (closeTokChars ++ rest))) with
      | '{' :: r =>
        match lazyScan r with
        | some (content, rest2) => some ('{' :: (content ++ ['}']), rest2)
        | none => none
      | _ => none) = _
    have hws : dropWsChars ('{' :: (inner ++ '}' :: (closeTokChars ++ rest)))
        = '{' :: (inner ++ '}' :: (closeTokChars ++ rest)) := by
      simp [dropWsChars, isPyWs]
    rw [hws]
    show (match lazyScan (inner ++ '}' :: (closeTokChars ++ rest)) with
        | some (content, rest2) => some ('{' :: (content ++ ['}']), rest2)
        | none => none)
      = some ('{' :: (inner ++ ['}']), rest)
    rw [lazyScan_marker inner rest h]
  exact findPayloads_eq_match h1 h2

/-- A text with no `<tool_call>` occurrence contains no match at all. -/
theorem findPayloads_no_tok (t : List Char) (h : occursIn openTokChars t = false) :
    findToolCallPayloads t = [] := by
  rw [← List.append_nil t, findPayloads_skip t [] h (Or.inr rfl),
    findToolCallPayloads.eq_def]

/-- A reasoning text assembled from fillers and embedded markers:
`f₀ <tool_call>{p₀}</tool_call> f₁ <tool_call>{p₁}</tool_call> … tail`
(each pair contributes its filler, then one marker whose payload interior is
the pair's second component). -/
def assembleMarkers : List (List Char × List Char) → List Char → List Char
  | [], tail => tail
  | (filler, inner) :: rest, tail =>
      filler ++ (openTokChars
        ++ ('{' :: (inner ++ '}' :: (closeTokChars ++ assembleMarkers rest tail))))

/-- The scanner finds exactly the payloads of the markers, in order. -/
theorem findPayloads_assemble :
    ∀ (pairs : List (List Char × List Char)) (tail : List Char),
    (∀ pr ∈ pairs, occursIn openTokChars pr.1 = false ∧ '<' ∉ pr.2) →
    occursIn openTokChars tail = false →
    findToolCallPayloads (assembleMarkers pairs tail)
      = pairs.map (fun pr => '{' :: (pr.2 ++ ['}'])) := by
  intro pairs
  induction pairs with
  | nil =>
    intro tail _ ht
    exact findPayloads_no_tok tail ht
  | cons pr rest ih =>
    intro tail hf ht
    obtain ⟨filler, inner⟩ := pr
    have hpr := hf ⟨filler, inner⟩ (by simp)
    have hskip := findPayloads_skip filler
      (openTokChars ++ ('{' :: (inner ++ '}' :: (closeTokChars ++ assembleMarkers rest tail))))
      hpr.1 (Or.inl ⟨_, rfl⟩)
    show findToolCallPayloads (filler ++ _) = _
    rw [hskip, findPayloads_marker inner (assembleMarkers rest tail) hpr.2]
    rw [ih tail (fun q hq => hf q (List.mem_cons_of_mem _ hq)) ht]
    rfl

/-- Specification-side renumbering: the calls built for a list of successfully
decoded payload objects, ids counting up from `idx`. -/
def numberFrom (idx : Nat) : List (List (String × JValue)) → List ToolCall
  | [] => []
  | fields :: rest => mkReasoningCall idx fields :: numberFrom (idx + 1) rest

theorem reasoningCallsAux_eq (jd : String → Option (List (String × JValue))) :
    ∀ (ps : List (List Char)) (idx : Nat),
    reasoningCallsAux jd ps idx
      = numberFrom idx (ps.filterMap (fun p => jd (String.mk p))) := by
  intro ps
  induction ps with
  | nil => intro idx; rfl
  | cons p rest ih =>
    intro idx
    show (match jd (String.mk p) with
      | none => reasoningCallsAux jd rest idx
      | some fields => mkReasoningCall idx fields :: reasoningCallsAux jd rest (idx + 1))
      = _
    rcases h : jd (String.mk p) with _ | fields
    · have hfm : List.filterMap (fun q => jd (String.mk q)) (p :: rest)
          = List.filterMap (fun q => jd (String.mk q)) rest := by
        rw [List.filterMap_cons, h]
      rw [hfm]
      exact ih idx
    · have hfm : List.filterMap (fun q => jd (String.mk q)) (p :: rest)
          = fields :: List.filterMap (fun q => jd (String.mk q)) rest := by
        rw [List.filterMap_cons, h]
      rw [hfm]
      show mkReasoningCall idx fields :: reasoningCallsAux jd rest (idx + 1)
        = mkReasoningCall idx fields :: numberFrom (idx + 1) _
      rw [ih (idx + 1)]

theorem numberFrom_map_id : ∀ (l : List (List (String × JValue))) (idx : Nat),
    (numberFrom idx l).map (fun tc => tc.id)
      = (List.range l.length).map (fun i => some ("call_" ++ toString (idx + i))) := by
  intro l
  induction l with
  | nil => intro idx; rfl
  | cons fields rest ih =>
    intro idx
    show some ("call_" ++ toString idx) :: (numberFrom (idx + 1) rest).map (fun tc => tc.id)
      = _
    rw [ih (idx + 1)]
    simp only [List.length_cons, List.range_succ_eq_map, List.map_cons, List.map_map]
    have htail : List.map (fun i => some ("call_" ++ toString (idx + 1 + i)))
          (List.range rest.length)
        = List.map ((fun i => some ("call_" ++ toString (idx + i))) ∘ Nat.succ)
          (List.range rest.length) := by
      apply List.map_congr_left
      intro i _
      simp only [Function.comp_apply]
      have e : idx + 1 + i = idx + i.succ := by omega
      rw [e]
    rw [htail, Nat.add_zero]

theorem numberFrom_map_function :
    ∀ (l : List (List (String × JValue))) (idx : Nat),
    (numberFrom idx l).map (fun tc => tc.function)
      = l.map (fun fields => some
          (⟨jmLookup fields "name",
            .str (formatArgs ((jmLookup fields "arguments").getD (.obj [])))⟩
            : ToolCallFunction)) := by
  intro l
  induction l with
  | nil => intro idx; rfl
  | cons fields rest ih =>
    intro idx
    show _ :: (numberFrom (idx + 1) rest).map (fun tc => tc.function) = _
    rw [ih (idx + 1)]
    rfl

/-- C7.  For every reasoning text assembled from `k` embedded
`<tool_call>{…}</tool_call>` markers (separated by filler free of the marker
token, each payload a brace-delimited block without `<`), the embedded-path
parser returns one invocation per payload that `json.loads` decodes, in order
of appearance, with sequential ids `call_0`, `call_1`, …; a marker whose
payload fails to decode is skipped without affecting the parsing or numbering
of the remaining markers (ids stay consecutive over the successes), and the
parser is a total function — it never raises. -/
theorem embedded_parser_all_markers
    (jd : String → Option (List (String × JValue)))
    (pairs : List (List Char × List Char)) (tail : List Char)
    (hf : ∀ pr ∈ pairs, occursIn openTokChars pr.1 = false ∧ '<' ∉ pr.2)
    (ht : occursIn openTokChars tail = false) :
    parseReasoningToolCalls jd (String.mk (assembleMarkers pairs tail))
      = numberFrom 0
          ((pairs.map (fun pr => String.mk ('{' :: (pr.2 ++ ['}'])))).filterMap jd)
    ∧ (parseReasoningToolCalls jd (String.mk (assembleMarkers pairs tail))).map
          (fun tc => tc.id)
      = (List.range
            ((pairs.map (fun pr => String.mk ('{' :: (pr.2 ++ ['}'])))).filterMap
              jd).length).map
          (fun i => some ("call_" ++ toString i))
    ∧ (parseReasoningToolCalls jd (String.mk (assembleMarkers pairs tail))).map
          (fun tc => tc.function)
      = ((pairs.map (fun pr => String.mk ('{' :: (pr.2 ++ ['}'])))).filterMap jd).map
          (fun fields => some
            (⟨jmLookup fields "name",
              .str (formatArgs ((jmLookup fields "arguments").getD (.obj [])))⟩
              : ToolCallFunction)) := by
  have hmain : parseReasoningToolCalls jd (String.mk (assembleMarkers pairs tail))
      = numberFrom 0
          ((pairs.map (fun pr => String.mk ('{' :: (pr.2 ++ ['}'])))).filterMap jd) := by
    show reasoningCallsAux jd (findToolCallPayloads (assembleMarkers pairs tail)) 0 = _
    rw [findPayloads_assemble pairs tail hf ht, reasoningCallsAux_eq]
    rw [List.filterMap_map, List.filterMap_map]
    rfl
  refine ⟨hmain, ?_, ?_⟩
  · rw [hmain, numberFrom_map_id]
    simp only [Nat.zero_add]
  · rw [hmain, numberFrom_map_function]

def c7Pairs : List (List Char × List Char) :=
  [("Thinking about the tools. ".data, "\"name\": \"t1\", \"arguments\": \x7b\x7d".data),
   (" then ".data, "oops not json".data),
   (" and ".data, "\"name\": \"t2\"".data)]

def c7Jd : String → Option (List (String × JValue)) :=
  fun s =>
    if s = String.mk ('{' :: ("\"name\": \"t1\", \"arguments\": \x7b\x7d".data ++ ['}'])) then
      some [("name", .str "t1"), ("arguments", .obj [])]
    else if s = String.mk ('{' :: ("\"name\": \"t2\"".data ++ ['}'])) then
      some [("name", .str "t2")]
    else none

/-- Three markers, the middle one undecodable: the two good ones come back in
order as `call_0`, `call_1` (the failure consumes no index). -/
theorem embedded_parser_all_markers_witness :
    parseReasoningToolCalls c7Jd (String.mk (assembleMarkers c7Pairs []))
      = [⟨some "call_0", some "function",
            some ⟨some (.str "t1"), .str (formatArgs (.obj []))⟩⟩,
         ⟨some "call_1", some "function",
            some ⟨some (.str "t2"), .str (formatArgs (.obj []))⟩⟩] := by
  have h := (embedded_parser_all_markers c7Jd c7Pairs [] (by decide) (by decide)).1
  rw [h]
  rfl

/-! ## The event-driven workflow (`agent/workflow.py`) -/

/-- `ToolSelection` (llama-index): invocation id, tool name, keyword args. -/
structure ToolSelection where
  tool_id : String
  tool_name : String
  tool_kwargs : List (String × JValue)
deriving Repr

/-- `ToolOutput`: appended to `sources`; the loop only reads its `content`. -/
structure ToolOutput where
  content : String
deriving Repr, DecidableEq

/-- A registered tool: `metadata.get_name()` plus the call itself;
`Except.error` carries `str(e)` of a raised exception. -/
structure RegTool where
  name : String
  run : List (String × JValue) → Except String ToolOutput

/-- A message in workflow Memory.  Tool messages carry
`additional_kwargs = {"tool_call_id": …, "name": …}`; other roles carry none. -/
structure WChatMsg where
  role : String
  content : String
  tool_call_id : Option String
  name : Option String
deriving Repr, DecidableEq

/-- `tools_by_name = {tool.metadata.get_name(): tool for tool in self.tools}`
then `.get(name)`: on duplicate names the later registration wins. -/
def toolsByName (tools : List RegTool) (n : String) : Option RegTool :=
  (tools.filter (fun t => t.name = n)).getLast?

/-- The `kwargs` unwrapping inside the `try` block:
`if "kwargs" in kwargs and isinstance(kwargs["kwargs"], dict): kwargs = kwargs["kwargs"]`. -/
def kwargsFor (tc : ToolSelection) : List (String × JValue) :=
  match jmLookup tc.tool_kwargs "kwargs" with
  | some (.obj inner) => inner
  | _ => tc.tool_kwargs

/-- The `for tool_call in tool_calls` loop of `AgentWorkflow.handle_tool_calls`.
Faithful to the source, including its bug: the line
`additional_kwargs = {"tool_call_id": tool_call.tool_id, "name": tool.metadata.get_name()}`
dereferences the result of the registry lookup *before* the `if not tool:`
guard, so an unregistered tool name raises `AttributeError` (modelled as
`Except.error`) and the `"Tool … does not exist"` branch below it is dead
code.  A tool that itself raises is caught by the `try/except` and folded into
a `"Encountered error in tool call: …"` message. -/
def handleToolCallsAux (tools : List RegTool) :
    List ToolSelection → List WChatMsg → List ToolOutput →
    Except String (List WChatMsg × List ToolOutput)
  | [], msgs, srcs => .ok (msgs, srcs)
  | tc :: rest, msgs, srcs =>
    match toolsByName tools tc.tool_name with
    | none => .error "AttributeError: 'NoneType' object has no attribute 'metadata'"
    | some tool =>
      -- here the source's `if not tool:` guard is unreachable (tool is not None)
      match tool.run (kwargsFor tc) with
      | .ok out =>
        handleToolCallsAux tools rest
          (msgs ++ [⟨"tool", out.content, some tc.tool_id, some tool.name⟩])
          (srcs ++ [out])
      | .error e =>
        handleToolCallsAux tools rest
          (msgs ++ [⟨"tool", "Encountered error in tool call: " ++ e,
            some tc.tool_id, some tool.name⟩])
          srcs

/-- `AgentWorkflow.handle_tool_calls` body: run the dispatch loop starting
from empty `tool_msgs` and the current `sources`; the caller appends the
returned messages to Memory. -/
def handleToolCalls (tools : List RegTool) (tcs : List ToolSelection)
    (sources : List ToolOutput) : Except String (List WChatMsg × List ToolOutput) :=
  handleToolCallsAux tools tcs [] sources

/-- One item of the async response stream of `astream_chat_with_tools`: the
incremental `delta` and the cumulative message so far. -/
structure StreamChunk where
  delta : Option String
  message : WChatMsg
deriving Repr, DecidableEq

/-- One model round: the streamed chunks, and what
`get_tool_calls_from_response` returns for the final response. -/
structure RoundResp where
  chunks : List StreamChunk
  toolCalls : List ToolSelection
deriving Repr

/-- Observable events of a workflow run: streamed deltas
(`ctx.write_event_to_stream(StreamEvent(...))`), Memory finalization of an
assistant message (`memory.put(response.message)`), the terminal `StopEvent`
(response text and sources), and a `ToolCallEvent`. -/
inductive WEvent where
  | streamEv (delta : String)
  | memPut (m : WChatMsg)
  | stopEv (responseText : String) (sources : List ToolOutput)
  | toolCallEv (toolCalls : List ToolSelection)
deriving Repr

/-- `AgentWorkflow.handle_llm_input`: emit one `StreamEvent` per chunk (in
stream order), then finalize the last chunk's cumulative message into Memory,
then either stop (carrying the response and the current sources) or hand the
tool calls on.  An empty stream leaves Python's `response` variable unbound —
modelled as an error. -/
def handleLlmInput (r : RoundResp) (memory : List WChatMsg)
    (sources : List ToolOutput) :
    Except String (List WEvent × List WChatMsg) :=
  match r.chunks.getLast? with
  | none => .error "UnboundLocalError: cannot access local variable 'response'"
  | some last =>
    let deltaEvents := r.chunks.map (fun c => WEvent.streamEv (c.delta.getD ""))
    let memory2 := memory ++ [last.message]
    if r.toolCalls.isEmpty then
      .ok (deltaEvents
        ++ [WEvent.memPut last.message,
            WEvent.stopEv last.message.content sources], memory2)
    else
      .ok (deltaEvents
        ++ [WEvent.memPut last.message, WEvent.toolCallEv r.toolCalls], memory2)

/-- The workflow cycle `handle_llm_input → handle_tool_calls → …`, driven by
the list of model rounds (one entry consumed per model submission); running
out of rounds models an unavailable model. -/
def runWorkflow (tools : List RegTool) :
    List RoundResp → List WChatMsg → List ToolOutput → List WEvent →
    Except String (List WEvent)
  | [], _, _, _ => .error "model stream exhausted"
  | r :: rest, memory, sources, acc =>
    match handleLlmInput r memory sources with
    | .error e => .error e
    | .ok (evs, memory2) =>
      if r.toolCalls.isEmpty then .ok (acc ++ evs)
      else
        match handleToolCalls tools r.toolCalls sources with
        | .error e => .error e
        | .ok (toolMsgs, sources2) =>
          runWorkflow tools rest (memory2 ++ toolMsgs) sources2 (acc ++ evs)

/-- `prepare_chat_history` then the cycle: memory starts with the user input. -/
def runAgentWorkflow (tools : List RegTool) (rounds : List RoundResp)
    (input : String) : Except String (List WEvent) :=
  runWorkflow tools rounds [⟨"user", input, none, none⟩] [] []

/-- The deltas surfaced to the consumer, in emission order. -/
def eventDeltas (evs : List WEvent) : List String :=
  evs.filterMap (fun e => match e with | .streamEv d => some d | _ => none)

/-- The texts of the terminal `StopEvent`s in a trace. -/
def stopTexts (evs : List WEvent) : List String :=
  evs.filterMap (fun e => match e with | .stopEv t _ => some t | _ => none)

/-! ## The `AgenticRAG.stream` loop (`agent/agentic_rag.py`) -/

/-- A message on the `messages` list built by `stream`; the assistant message
carries `additional_kwargs={"tool_calls": tool_calls}` (empty for others). -/
structure AChatMsg where
  role : String
  content : String
  tool_calls : List ToolCall
deriving Repr

/-- A tool result as returned by `client.call_tool`: a string, a list of
parts, a dict-shaped part, or anything else (rendered via `str(...)`). -/
inductive RContent where
  | str (s : String)
  | items (l : List RContent)
  | jobj (d : List (String × JValue))
  | other (s : String)
deriving Repr

mutual

/-- `AgenticRAG._render_tool_content`: strings pass through; lists render each
item and join the non-empty parts with newlines; dict-shaped content returns
its `"text"` entry when `type == "text"` and otherwise its JSON dump; anything
else is `str(content)`. -/
def renderToolContent : RContent → String
  | .str s => s
  | .items l => String.intercalate "\n" (renderParts l)
  | .jobj d =>
    match jmLookup d "type" with
    | some (.str "text") =>
      (match (jmLookup d "text").getD (.str "") with
       | .str t => t
       | v => jdump v)
    | _ => jdump (.obj d)
  | .other s => s

def renderParts : List RContent → List String
  | [] => []
  | c :: cs =>
    let r := renderToolContent c
    if r ≠ "" then r :: renderParts cs else renderParts cs

end

/-- Python `f"{value}"` for the values a tool name can take (the interpolation
of container values differs cosmetically from `repr`; no claim reads it). -/
def pyStr : JValue → String
  | .str s => s
  | .null => "None"
  | .bool true => "True"
  | .bool false => "False"
  | .num n => toString n
  | v => jdump v

/-- The collaborators of `AgenticRAG.stream`: the function-calling model
(`self.llm_function.chat`, called once before the loop), the plain model
(`self.llm.chat`, called once after the loop, its output only logged), the
MCP client's `call_tool` (whose raised exceptions propagate), and the two
`json.loads` oracles used by the extractor and the argument parser.  The
`tools=available_tools` argument is fixed for the whole run and is folded
into the oracles. -/
structure StreamEnv where
  chatFn : List AChatMsg → ChatResponse
  chatFinal : List AChatMsg → ChatResponse
  callTool : JValue → List (String × JValue) → Except String RContent
  jdObj : String → Option (List (String × JValue))
  jdVal : String → Option JValue

/-- The `for tool_call in tool_calls:` body of `stream`: parse the call, skip
it when the name is falsy, otherwise dispatch; a raising `call_tool` aborts
the whole run (`stream` has no `try/except` around it), otherwise the rendered
result is appended to the final chunks and to `messages` as a user message. -/
def streamDispatch (env : StreamEnv) :
    List ToolCall → List AChatMsg → List String →
    Except String (List AChatMsg × List String)
  | [], messages, chunks => .ok (messages, chunks)
  | tc :: rest, messages, chunks =>
    match (parseToolCall env.jdVal tc).1 with
    | none => streamDispatch env rest messages chunks
    | some nm =>
      if jvTruthy nm = false then streamDispatch env rest messages chunks
      else
        match env.callTool nm (parseToolCall env.jdVal tc).2 with
        | .error e => .error e
        | .ok content =>
          let result_text := renderToolContent content
          let chunk := "\n[Tool " ++ pyStr nm ++ " used with args: "
            ++ formatArgs (.obj (parseToolCall env.jdVal tc).2) ++ "]\n" ++ result_text
          streamDispatch env rest (messages ++ [⟨"user", result_text, []⟩])
            (chunks ++ [chunk])

/-- The `while True:` loop of `stream`.  The loop never re-submits to the
model: `response` is bound once before the loop and only re-bound *after* it,
so every iteration re-extracts from the same response.  `fuel` bounds the
number of iterations we are willing to unfold; `none` means the loop was
still running after `fuel` iterations. -/
def streamLoop (env : StreamEnv) (response : ChatResponse) :
    Nat → List AChatMsg → List String →
    Option (Except String (List AChatMsg × List String))
  | 0, _, _ => none
  | fuel + 1, messages, chunks =>
    let assistant_text := messageText response.message
    let chunks2 := if assistant_text ≠ "" then chunks ++ [assistant_text] else chunks
    let tool_calls := extractToolCalls env.jdObj response
    if tool_calls.isEmpty then some (.ok (messages, chunks2))
    else
      match streamDispatch env tool_calls
          (messages ++ [⟨"assistant", assistant_text, tool_calls⟩]) chunks2 with
      | .error e => some (.error e)
      | .ok (messages3, chunks3) => streamLoop env response fuel messages3 chunks3

/-- The initial `messages` list of `stream`. -/
def streamInitMsgs (query : String) : List AChatMsg :=
  [⟨"system", "You are an agentic RAG system that can use tools to answer user queries.", []⟩,
   ⟨"user", query, []⟩]

/-- `AgenticRAG.stream`: one model submission before the loop, the loop
itself, then one more model submission (`self.llm.chat`) whose result is only
logged, then the joined non-empty chunks.  The `Nat` in the result counts the
model submissions performed: every run that returns has made exactly two
(`llm_function.chat` before the loop and `llm.chat` after it — the loop body
itself never calls the model).  A raised tool exception propagates (the
`finally:` block only cleans up); `none` means the loop exceeded `fuel`
iterations without terminating. -/
def stream (env : StreamEnv) (fuel : Nat) (query : String) :
    Option (Except String (String × Nat)) :=
  let messages := streamInitMsgs query
  let response := env.chatFn messages
  match streamLoop env response fuel messages [] with
  | none => none
  | some (.error e) => some (.error e)
  | some (.ok (messages2, chunks)) =>
    let finalResp := env.chatFinal messages2
    let _ := finalResp
    some (.ok (String.intercalate "\n" (chunks.filter (fun c => c ≠ "")), 2))

def c1Tools : List RegTool := [⟨"graph_query", fun _ => .ok ⟨"42"⟩⟩]

/-- C1 (code bug).  A round whose tool invocation names an unregistered tool
does not produce the `"Tool … does not exist"` message: building
`additional_kwargs` evaluates `tool.metadata.get_name()` on the `None` lookup
result *before* the `if not tool:` guard, so `handle_tool_calls` raises
`AttributeError` and the run aborts — contradicting both the claim and the
source's own `# call tools -- safely!` intent, whose `"does not exist"` branch
is unreachable. -/
theorem unknown_tool_raises_attribute_error :
    handleToolCalls c1Tools [⟨"call-1", "ghost_tool", []⟩] []
      = .error "AttributeError: 'NoneType' object has no attribute 'metadata'" := rfl

/-- When every dispatched call succeeds, the dispatch loop of `stream` returns
normally. -/
theorem streamDispatch_ok (env : StreamEnv)
    (hok : ∀ nm args, ∃ c, env.callTool nm args = .ok c) :
    ∀ (tcs : List ToolCall) (messages : List AChatMsg) (chunks : List String),
    ∃ m2 c2, streamDispatch env tcs messages chunks = .ok (m2, c2) := by
  intro tcs
  induction tcs with
  | nil => intro m c; exact ⟨m, c, rfl⟩
  | cons tc rest ih =>
    intro m c
    rcases hp : (parseToolCall env.jdVal tc).1 with _ | nm
    · simp only [streamDispatch, hp]
      exact ih m c
    · simp only [streamDispatch, hp]
      by_cases ht : jvTruthy nm = false
      · rw [if_pos ht]
        exact ih m c
      · rw [if_neg ht]
        rcases hok nm (parseToolCall env.jdVal tc).2 with ⟨ct, hct⟩
        rw [hct]
        exact ih _ _

/-- If the (single, never re-submitted) response keeps yielding tool calls and
no dispatched call raises, the `while True:` loop never terminates, whatever
iteration bound we allow. -/
theorem streamLoop_never_stops (env : StreamEnv) (response : ChatResponse)
    (hne : (extractToolCalls env.jdObj response).isEmpty = false)
    (hok : ∀ nm args, ∃ c, env.callTool nm args = .ok c) :
    ∀ fuel messages chunks, streamLoop env response fuel messages chunks = none := by
  intro fuel
  induction fuel with
  | zero => intro m c; rfl
  | succ n ih =>
    intro m c
    simp only [streamLoop, hne, Bool.false_eq_true, if_false]
    rcases streamDispatch_ok env hok (extractToolCalls env.jdObj response)
      (m ++ [⟨"assistant", messageText response.message,
        extractToolCalls env.jdObj response⟩])
      (if messageText response.message ≠ "" then c ++ [messageText response.message] else c)
      with ⟨m2, c2, hd⟩
    rw [hd]
    exact ih m2 c2

/-- A response carrying one structured tool call. -/
def c2Resp : ChatResponse :=
  { tool_calls := some [⟨some "call-1", some "function",
      some ⟨some (.str "echo"), .dict []⟩⟩]
    message := { blocks := [], content := some "calling a tool", tool_calls := none }
    raw := none }

/-- A model that requests the same tool call forever, with a tool that always
succeeds. -/
def c2Env : StreamEnv :=
  { chatFn := fun _ => c2Resp
    chatFinal := fun _ => c2Resp
    callTool := fun _ _ => .ok (.str "tool data")
    jdObj := fun _ => none
    jdVal := fun _ => none }

/-- C2 (amended).  `AgenticRAG.stream` has no round counter and its loop never
re-submits to the model: whenever the first response contains at least one
tool call and dispatch does not raise, the run is still incomplete after any
number of loop iterations — there is no configured bound, no partial answer
and no round-limit marker. -/
theorem stream_no_round_bound (env : StreamEnv) (q : String)
    (hne : (extractToolCalls env.jdObj (env.chatFn (streamInitMsgs q))).isEmpty = false)
    (hok : ∀ nm args, ∃ c, env.callTool nm args = .ok c) :
    ∀ fuel, stream env fuel q = none := by
  intro fuel
  have h := streamLoop_never_stops env (env.chatFn (streamInitMsgs q))
    hne hok fuel (streamInitMsgs q) []
  simp only [stream, h]

theorem stream_no_round_bound_witness : stream c2Env 7 "query" = none :=
  stream_no_round_bound c2Env "query" rfl (fun _ _ => ⟨.str "tool data", rfl⟩) 7

/-- `stream` is still incomplete after every number of loop iterations: the
run never terminates under any bound. -/
def streamNeverReturns (env : StreamEnv) (q : String) : Prop :=
  ∀ fuel, stream env fuel q = none

/-- C2 (counterexample to the claim as stated): against `c2Env` — a model
that always requests a tool call — the run never terminates: no bound exists
at or before which `stream` completes, and no round-limit marker is produced. -/
theorem stream_round_bound_counterexample : streamNeverReturns c2Env "query" := by
  intro fuel
  have h := streamLoop_never_stops c2Env (c2Env.chatFn (streamInitMsgs "query"))
    rfl (fun _ _ => ⟨.str "tool data", rfl⟩) fuel (streamInitMsgs "query") []
  simp only [streamNeverReturns, stream, h]

/-- The tool message `handle_tool_calls` appends for one invocation whose
name resolves: the tool's rendered output on success, the
`"Encountered error in tool call: …"` message when the tool raises. -/
def toolMsgFor (tools : List RegTool) (tc : ToolSelection) : WChatMsg :=
  match toolsByName tools tc.tool_name with
  | some tool =>
    (match tool.run (kwargsFor tc) with
     | .ok out => ⟨"tool", out.content, some tc.tool_id, some tool.name⟩
     | .error e => ⟨"tool", "Encountered error in tool call: " ++ e,
         some tc.tool_id, some tool.name⟩)
  | none => ⟨"tool", "Tool " ++ tc.tool_name ++ " does not exist", some tc.tool_id, none⟩

/-- The source entry appended for one invocation: only successful tool runs
contribute to `sources`. -/
def toolSrcFor (tools : List RegTool) (tc : ToolSelection) : Option ToolOutput :=
  match toolsByName tools tc.tool_name with
  | some tool =>
    (match tool.run (kwargsFor tc) with
     | .ok out => some out
     | .error _ => none)
  | none => none

theorem handleToolCallsAux_ok (tools : List RegTool) :
    ∀ (tcs : List ToolSelection) (msgs : List WChatMsg) (srcs : List ToolOutput),
    (∀ tc ∈ tcs, (toolsByName tools tc.tool_name).isSome = true) →
    handleToolCallsAux tools tcs msgs srcs
      = .ok (msgs ++ tcs.map (toolMsgFor tools),
             srcs ++ tcs.filterMap (toolSrcFor tools)) := by
  intro tcs
  induction tcs with
  | nil => intro msgs srcs _; simp [handleToolCallsAux]
  | cons tc rest ih =>
    intro msgs srcs h
    have hs := h tc (List.mem_cons_self tc rest)
    rcases ho : toolsByName tools tc.tool_name with _ | tool
    · rw [ho] at hs; cases hs
    · have hrest : ∀ q ∈ rest, (toolsByName tools q.tool_name).isSome = true :=
        fun q hq => h q (List.mem_cons_of_mem tc hq)
      rcases hr : tool.run (kwargsFor tc) with e | out
      · have hm : toolMsgFor tools tc
            = ⟨"tool", "Encountered error in tool call: " ++ e,
                some tc.tool_id, some tool.name⟩ := by
          simp [toolMsgFor, ho, hr]
        have hsrc : toolSrcFor tools tc = none := by
          simp [toolSrcFor, ho, hr]
        calc handleToolCallsAux tools (tc :: rest) msgs srcs
            = handleToolCallsAux tools rest
                (msgs ++ [⟨"tool", "Encountered error in tool call: " ++ e,
                  some tc.tool_id, some tool.name⟩]) srcs := by
              simp only [handleToolCallsAux, ho, hr]
          _ = .ok ((msgs ++ [⟨"tool", "Encountered error in tool call: " ++ e,
                  some tc.tool_id, some tool.name⟩]) ++ rest.map (toolMsgFor tools),
                srcs ++ rest.filterMap (toolSrcFor tools)) := ih _ _ hrest
          _ = .ok (msgs ++ (tc :: rest).map (toolMsgFor tools),
                srcs ++ (tc :: rest).filterMap (toolSrcFor tools)) := by
              simp [hm, hsrc, List.append_assoc]
      · have hm : toolMsgFor tools tc
            = ⟨"tool", out.content, some tc.tool_id, some tool.name⟩ := by
          simp [toolMsgFor, ho, hr]
        have hsrc : toolSrcFor tools tc = some out := by
          simp [toolSrcFor, ho, hr]
        calc handleToolCallsAux tools (tc :: rest) msgs srcs
            = handleToolCallsAux tools rest
                (msgs ++ [⟨"tool", out.content, some tc.tool_id, some tool.name⟩])
                (srcs ++ [out]) := by
              simp only [handleToolCallsAux, ho, hr]
          _ = .ok ((msgs ++ [⟨"tool", out.content, some tc.tool_id, some tool.name⟩])
                  ++ rest.map (toolMsgFor tools),
                (srcs ++ [out]) ++ rest.filterMap (toolSrcFor tools)) := ih _ _ hrest
          _ = .ok (msgs ++ (tc :: rest).map (toolMsgFor tools),
                srcs ++ (tc :: rest).filterMap (toolSrcFor tools)) := by
              simp [hm, hsrc, List.append_assoc]

/-- C4 (amended).  In `AgentWorkflow.handle_tool_calls`, when every invocation
names a registered tool, any exception a tool raises is caught at the dispatch
boundary and folded into a tool message
`"Encountered error in tool call: <message>"`, and the step completes normally
(one tool message per invocation, sources collecting only the successes) — the
run is not aborted.  In `AgenticRAG.stream`, by contrast, a tool exception
propagates and aborts the run (see the counterexample). -/
theorem tool_exception_contained_in_workflow (tools : List RegTool)
    (tcs : List ToolSelection) (sources : List ToolOutput)
    (h : ∀ tc ∈ tcs, (toolsByName tools tc.tool_name).isSome = true) :
    handleToolCalls tools tcs sources
      = .ok (tcs.map (toolMsgFor tools), sources ++ tcs.filterMap (toolSrcFor tools))
    ∧ (∀ (tc : ToolSelection) (tool : RegTool) (e : String),
        toolsByName tools tc.tool_name = some tool →
        tool.run (kwargsFor tc) = .error e →
        toolMsgFor tools tc
          = ⟨"tool", "Encountered error in tool call: " ++ e,
              some tc.tool_id, some tool.name⟩) := by
  constructor
  · have := handleToolCallsAux_ok tools tcs [] sources h
    simpa [handleToolCalls] using this
  · intro tc tool e h1 h2
    simp [toolMsgFor, h1, h2]

def c4Tools : List RegTool := [⟨"boom_tool", fun _ => .error "boom"⟩]

theorem tool_exception_contained_in_workflow_witness :
    handleToolCalls c4Tools [⟨"call-9", "boom_tool", []⟩] []
      = .ok ([⟨"tool", "Encountered error in tool call: boom",
          some "call-9", some "boom_tool"⟩], []) := by
  have h := (tool_exception_contained_in_workflow c4Tools
    [⟨"call-9", "boom_tool", []⟩] []
    (by intro tc htc
        rw [List.mem_singleton] at htc
        subst htc
        rfl)).1
  rw [h]
  rfl

/-- A model requesting one tool call against a client whose tool raises. -/
def c4Env : StreamEnv :=
  { chatFn := fun _ => c2Resp
    chatFinal := fun _ => c2Resp
    callTool := fun _ _ => .error "boom"
    jdObj := fun _ => none
    jdVal := fun _ => none }

/-- C4 (counterexample to the claim as stated): in the `AgenticRAG.stream`
orchestration loop the dispatch has no `try/except`, so the tool's exception
propagates out of `stream` and the run aborts. -/
theorem tool_exception_aborts_stream_counterexample :
    stream c4Env 1 "query" = some (.error "boom") := rfl

theorem intercalate_singleton (t : String) : String.intercalate "\n" [t] = t := rfl

/-- C5 (amended).  A first model response with zero tool calls ends the
orchestration loop after exactly one round and the returned text is that
response's text unchanged; `AgentWorkflow` performs exactly one model
submission (the remaining model rounds are never consulted), while
`AgenticRAG.stream` performs one additional post-loop model submission
(`self.llm.chat`, output only logged), for two submissions in total. -/
theorem zero_tool_calls_one_round (env : StreamEnv) (q : String) (fuel : Nat)
    (hext : (extractToolCalls env.jdObj (env.chatFn (streamInitMsgs q))).isEmpty = true)
    (tools : List RegTool) (r : RoundResp) (rest rest2 : List RoundResp)
    (memory : List WChatMsg) (sources : List ToolOutput) (acc : List WEvent)
    (last : StreamChunk) (hlast : r.chunks.getLast? = some last)
    (hnotc : r.toolCalls = []) :
    stream env (fuel + 1) q
      = some (.ok (messageText (env.chatFn (streamInitMsgs q)).message, 2))
    ∧ runWorkflow tools (r :: rest) memory sources acc
      = .ok (acc ++ (r.chunks.map (fun c => WEvent.streamEv (c.delta.getD ""))
          ++ [WEvent.memPut last.message,
              WEvent.stopEv last.message.content sources]))
    ∧ runWorkflow tools (r :: rest) memory sources acc
      = runWorkflow tools (r :: rest2) memory sources acc := by
  refine ⟨?_, ?_, ?_⟩
  · have hl : streamLoop env (env.chatFn (streamInitMsgs q)) (fuel + 1)
        (streamInitMsgs q) []
        = some (.ok (streamInitMsgs q,
            if messageText (env.chatFn (streamInitMsgs q)).message ≠ ""
            then [messageText (env.chatFn (streamInitMsgs q)).message] else [])) := by
      simp only [streamLoop, hext, if_true, List.nil_append]
    simp only [stream, hl]
    by_cases ht : messageText (env.chatFn (streamInitMsgs q)).message = ""
    · simp only [ht, ne_eq, not_true_eq_false, if_false, List.filter_nil]
      rfl
    · rw [if_pos ht]
      have hfil : ([messageText (env.chatFn (streamInitMsgs q)).message].filter
          (fun c => c ≠ "")) = [messageText (env.chatFn (streamInitMsgs q)).message] := by
        simp [ht]
      rw [hfil, intercalate_singleton]
  · simp only [runWorkflow, handleLlmInput, hlast, hnotc, List.isEmpty_nil,
      if_true, List.append_assoc]
  · simp only [runWorkflow, handleLlmInput, hlast, hnotc, List.isEmpty_nil, if_true]

/-- A model whose (first) response has no tool calls at all. -/
def c5Resp : ChatResponse :=
  { tool_calls := none
    message := { blocks := [], content := some "hello", tool_calls := none }
    raw := none }

def c5Env : StreamEnv :=
  { chatFn := fun _ => c5Resp
    chatFinal := fun _ => c5Resp
    callTool := fun _ _ => .ok (.str "")
    jdObj := fun _ => none
    jdVal := fun _ => none }

def c5Round : RoundResp :=
  { chunks := [⟨some "hello", ⟨"assistant", "hello", none, none⟩⟩]
    toolCalls := [] }

theorem zero_tool_calls_one_round_witness :
    stream c5Env (0 + 1) "q" = some (.ok ("hello", 2))
    ∧ runWorkflow [] [c5Round] [] [] []
      = .ok ([WEvent.streamEv "hello",
          WEvent.memPut ⟨"assistant", "hello", none, none⟩,
          WEvent.stopEv "hello" []]) := by
  have h := zero_tool_calls_one_round c5Env "q" 0 rfl [] c5Round [] [] [] [] []
    ⟨some "hello", ⟨"assistant", "hello", none, none⟩⟩ rfl rfl
  exact ⟨h.1, h.2.1⟩

/-- C5 (counterexample to the claim as stated): `AgenticRAG.stream` makes a
second model submission (`self.llm.chat` after the loop) even when the first
response has zero tool calls — two submissions, not one. -/
theorem single_round_two_submissions_counterexample :
    stream c5Env 1 "q" = some (.ok ("hello", 2)) ∧ (2 : Nat) ≠ 1 :=
  ⟨rfl, by decide⟩

theorem stopTexts_append (a b : List WEvent) :
    stopTexts (a ++ b) = stopTexts a ++ stopTexts b :=
  List.filterMap_append a b _

theorem stopTexts_streamEvs (chunks : List StreamChunk) :
    stopTexts (chunks.map (fun c => WEvent.streamEv (c.delta.getD ""))) = [] := by
  induction chunks with
  | nil => rfl
  | cons c cs ih => simpa [stopTexts, List.filterMap_cons] using ih

theorem runWorkflow_cons_nochunks (tools : List RegTool) (r : RoundResp)
    (rest : List RoundResp) (memory : List WChatMsg) (sources : List ToolOutput)
    (acc : List WEvent) (hlast : r.chunks.getLast? = none) :
    runWorkflow tools (r :: rest) memory sources acc
      = .error "UnboundLocalError: cannot access local variable 'response'" := by
  simp only [runWorkflow, handleLlmInput, hlast]

theorem runWorkflow_cons_stop (tools : List RegTool) (r : RoundResp)
    (rest : List RoundResp) (memory : List WChatMsg) (sources : List ToolOutput)
    (acc : List WEvent) (last : StreamChunk)
    (hlast : r.chunks.getLast? = some last) (htc : r.toolCalls.isEmpty = true) :
    runWorkflow tools (r :: rest) memory sources acc
      = .ok (acc ++ (r.chunks.map (fun c => WEvent.streamEv (c.delta.getD ""))
          ++ [WEvent.memPut last.message,
              WEvent.stopEv last.message.content sources])) := by
  simp only [runWorkflow, handleLlmInput, hlast, htc, if_true, List.append_assoc]

theorem runWorkflow_cons_tools (tools : List RegTool) (r : RoundResp)
    (rest : List RoundResp) (memory : List WChatMsg) (sources : List ToolOutput)
    (acc : List WEvent) (last : StreamChunk) (toolMsgs : List WChatMsg)
    (sources2 : List ToolOutput)
    (hlast : r.chunks.getLast? = some last) (htc : r.toolCalls.isEmpty = false)
    (hht : handleToolCalls tools r.toolCalls sources = .ok (toolMsgs, sources2)) :
    runWorkflow tools (r :: rest) memory sources acc
      = runWorkflow tools rest ((memory ++ [last.message]) ++ toolMsgs) sources2
          (acc ++ (r.chunks.map (fun c => WEvent.streamEv (c.delta.getD ""))
            ++ [WEvent.memPut last.message, WEvent.toolCallEv r.toolCalls])) := by
  simp only [runWorkflow, handleLlmInput, hlast, htc, Bool.false_eq_true, if_false,
    hht, List.append_assoc]

theorem runWorkflow_cons_toolerr (tools : List RegTool) (r : RoundResp)
    (rest : List RoundResp) (memory : List WChatMsg) (sources : List ToolOutput)
    (acc : List WEvent) (last : StreamChunk) (e : String)
    (hlast : r.chunks.getLast? = some last) (htc : r.toolCalls.isEmpty = false)
    (hht : handleToolCalls tools r.toolCalls sources = .error e) :
    runWorkflow tools (r :: rest) memory sources acc = .error e := by
  simp only [runWorkflow, handleLlmInput, hlast, htc, Bool.false_eq_true, if_false, hht]

/-- C9 (amended).  Under the streaming contract of the model client (the final
cumulative message of a round equals the concatenation of that round's
deltas), every successful workflow run has exactly one terminal event, its
response text equals the concatenation of the deltas of the round that
produced zero tool calls (deltas of earlier tool-calling rounds are surfaced
to the consumer but are not part of the terminal text), and within that final
round every delta event precedes the Memory finalization of the assistant
message, which precedes the terminal event. -/
theorem stop_text_is_final_round_deltas (tools : List RegTool) :
    ∀ (rounds : List RoundResp) (memory : List WChatMsg) (sources : List ToolOutput)
      (acc evs : List WEvent),
    (∀ r ∈ rounds, ∀ last, r.chunks.getLast? = some last →
        last.message.content = String.join (r.chunks.map (fun c => c.delta.getD ""))) →
    stopTexts acc = [] →
    runWorkflow tools rounds memory sources acc = .ok evs →
    ∃ r ∈ rounds, r.toolCalls = []
      ∧ stopTexts evs = [String.join (r.chunks.map (fun c => c.delta.getD ""))]
      ∧ ∃ pre last srcs, r.chunks.getLast? = some last
          ∧ evs = pre ++ r.chunks.map (fun c => WEvent.streamEv (c.delta.getD ""))
              ++ [WEvent.memPut last.message,
                  WEvent.stopEv
                    (String.join (r.chunks.map (fun c => c.delta.getD ""))) srcs] := by
  intro rounds
  induction rounds with
  | nil =>
    intro memory sources acc evs _ _ hrun
    simp [runWorkflow] at hrun
  | cons r rest ih =>
    intro memory sources acc evs hctr hacc hrun
    rcases hlast : r.chunks.getLast? with _ | last
    · rw [runWorkflow_cons_nochunks tools r rest memory sources acc hlast] at hrun
      cases hrun
    · rcases htc : r.toolCalls.isEmpty with _ | _
      · -- tool calls present: recurse
        rcases hht : handleToolCalls tools r.toolCalls sources with e | pr
        · rw [runWorkflow_cons_toolerr tools r rest memory sources acc last e
            hlast htc hht] at hrun
          cases hrun
        · obtain ⟨toolMsgs, sources2⟩ := pr
          rw [runWorkflow_cons_tools tools r rest memory sources acc last toolMsgs
            sources2 hlast htc hht] at hrun
          have hacc2 : stopTexts
              (acc ++ (r.chunks.map (fun c => WEvent.streamEv (c.delta.getD ""))
                ++ [WEvent.memPut last.message, WEvent.toolCallEv r.toolCalls])) = [] := by
            rw [stopTexts_append, stopTexts_append, hacc, stopTexts_streamEvs]
            rfl
          obtain ⟨rr, hrr, h1, h2, h3⟩ := ih _ _ _ _
            (fun q hq => hctr q (List.mem_cons_of_mem r hq)) hacc2 hrun
          exact ⟨rr, List.mem_cons_of_mem r hrr, h1, h2, h3⟩
      · -- zero tool calls: this is the terminal round
        have htc2 : r.toolCalls = [] := by
          cases he : r.toolCalls with
          | nil => rfl
          | cons a l => rw [he] at htc; cases htc
        rw [runWorkflow_cons_stop tools r rest memory sources acc last hlast htc]
          at hrun
        injection hrun with hevs
        have hcontent := hctr r (List.mem_cons_self r rest) last hlast
        refine ⟨r, List.mem_cons_self r rest, htc2, ?_, acc, last, sources, hlast, ?_⟩
        · rw [← hevs, stopTexts_append, hacc, stopTexts_append, stopTexts_streamEvs,
            hcontent]
          rfl
        · rw [← hevs, hcontent, List.append_assoc]

def c9Tools : List RegTool := [⟨"echo", fun _ => .ok ⟨"out"⟩⟩]

def c9Round1 : RoundResp :=
  { chunks := [⟨some "abc", ⟨"assistant", "abc", none, none⟩⟩]
    toolCalls := [⟨"c1", "echo", []⟩] }

def c9Round2 : RoundResp :=
  { chunks := [⟨some "xy", ⟨"assistant", "xy", none, none⟩⟩,
               ⟨some "z", ⟨"assistant", "xyz", none, none⟩⟩]
    toolCalls := [] }

theorem stop_text_is_final_round_deltas_witness :
    ∃ r ∈ [c9Round1, c9Round2], r.toolCalls = []
      ∧ stopTexts [WEvent.streamEv "abc",
          WEvent.memPut ⟨"assistant", "abc", none, none⟩,
          WEvent.toolCallEv [⟨"c1", "echo", []⟩],
          WEvent.streamEv "xy", WEvent.streamEv "z",
          WEvent.memPut ⟨"assistant", "xyz", none, none⟩,
          WEvent.stopEv "xyz" [⟨"out"⟩]]
        = [String.join (r.chunks.map (fun c => c.delta.getD ""))]
      ∧ ∃ pre last srcs, r.chunks.getLast? = some last
          ∧ [WEvent.streamEv "abc",
              WEvent.memPut ⟨"assistant", "abc", none, none⟩,
              WEvent.toolCallEv [⟨"c1", "echo", []⟩],
              WEvent.streamEv "xy", WEvent.streamEv "z",
              WEvent.memPut ⟨"assistant", "xyz", none, none⟩,
              WEvent.stopEv "xyz" [⟨"out"⟩]]
            = pre ++ r.chunks.map (fun c => WEvent.streamEv (c.delta.getD ""))
              ++ [WEvent.memPut last.message,
                  WEvent.stopEv
                    (String.join (r.chunks.map (fun c => c.delta.getD ""))) srcs] := by
  apply stop_text_is_final_round_deltas c9Tools [c9Round1, c9Round2]
    [⟨"user", "q", none, none⟩] [] []
  · intro r hr last hl
    simp only [List.mem_cons, List.mem_singleton, List.not_mem_nil, or_false] at hr
    rcases hr with rfl | rfl
    · have he : c9Round1.chunks.getLast?
          = some ⟨some "abc", ⟨"assistant", "abc", none, none⟩⟩ := rfl
      rw [he] at hl
      injection hl with hl
      subst hl
      rfl
    · have he : c9Round2.chunks.getLast?
          = some ⟨some "z", ⟨"assistant", "xyz", none, none⟩⟩ := rfl
      rw [he] at hl
      injection hl with hl
      subst hl
      rfl
  · rfl
  · rfl

/-- C9 (counterexample to the claim as stated): in a two-round run the
consumer sees the deltas of both rounds (`"abc"`, `"xy"`, `"z"`), but the
terminal event's text is only the final round's `"xyz"`, not the
concatenation `"abcxyz"` of all emitted deltas. -/
theorem streaming_concat_counterexample :
    (runAgentWorkflow c9Tools [c9Round1, c9Round2] "q").map
        (fun evs => (stopTexts evs, String.join (eventDeltas evs)))
      = .ok (["xyz"], "abcxyz")
    ∧ ("xyz" : String) ≠ "abcxyz" :=
  ⟨rfl, by decide⟩
